import Mathlib

/-!
Shallow embedding of django-parting (src/parting/models.py): the partition
registry, the partition manager with its lazy partition synthesis and
foreign-key cascade, and the declaration-time checks of PartitionManager and
PartitionForeignKey.

Modelling conventions:
* Python classes (Django model classes) are heap objects: `ModelId := Nat`
  indices into `PState.models`.  Class creation allocates `nextId`.
* Django external collaborators are modelled at their interfaces: the app
  cache (`get_model` looks names up lowercased, class creation registers the
  class once and keeps the first registration), `sys.modules` as a name ->
  attribute-dict map, `Options.add_field` as append to `local_fields`
  invalidating the field caches, and abstract-base inheritance as copying the
  base fields onto the new class by re-running each field contribution
  (this re-runs `PartitionForeignKey.contribute_to_class` for placeholder
  fields, exactly as Django does for abstract parents).
  Django orders fields by creation counter; the claims checked here are
  insensitive to intra-list field order, so contribution is modelled as
  append.
* Python exceptions carry the mutated global state with them, so every
  operation returns `PState × Except PError _`.
* Python list objects are mutable and aliased: the registry stores list
  references (`PState.lists` is the list heap) so that
  `foreign_keys_referencing` can return the live stored list, and the
  `for pfk in ...` loop in `_ensure_partition` is modelled as index-based
  iteration that re-reads the live list each step, as Python does.
* The recursive cascade is given a fuel parameter; exhaustion returns
  `PError.recursionError` (Python would hit the recursion limit).
-/

deriving instance DecidableEq for Except

namespace Parting

abbrev ModelId := Nat

/-- Pass-through relationship options of a foreign key (nullability,
related-name and so on). -/
structure FieldKwargs where
  related_name : Option String := none
  null : Bool := false
deriving DecidableEq

/-- A field on a model: a plain field, a PartitionForeignKey placeholder
(`pfk`, with its object identity `pid`), or a concrete foreign key. -/
inductive Field where
  | plain (fname : String)
  | pfk (pid : Nat) (fname : String) (tgt : ModelId) (kwargs : FieldKwargs)
  | fk (fname : String) (tgt : ModelId) (kwargs : FieldKwargs)
deriving DecidableEq

def Field.name : Field → String
  | .plain n => n
  | .pfk _ n _ _ => n
  | .fk n _ _ => n

/-- `isinstance(field, PartitionForeignKey)` -/
def Field.isPFK : Field → Bool
  | .pfk _ _ _ _ => true
  | _ => false

def Field.pfkTo : Field → Option ModelId
  | .pfk _ _ t _ => some t
  | _ => none

/-- A PartitionForeignKey object as stored in the registry: its identity,
its owning class (`self.cls`), attribute name, target template (Python
attribute `to`, embedded here as `tgt`) and the stored fk kwargs. -/
structure PFK where
  pid : Nat
  cls : ModelId
  fname : String
  tgt : ModelId
  kwargs : FieldKwargs
deriving DecidableEq

/-- The data of one Django model class.  `partition_manager` holds the id of
the template model the attached manager was contributed to (the manager
object is identified by its `self.model`); it is copied to generated
partitions, mirroring Python attribute inheritance. -/
structure ModelData where
  object_name : String
  app_label : String
  module : String
  abstract : Bool
  partition_key : Option String := none
  local_fields : List Field := []
  field_cache : Option (List (Field × Option ModelId)) := none
  field_name_cache : Option (List Field) := none
  parents : List ModelId := []
  partition_manager : Option ModelId := none
  managers : List String := []
deriving DecidableEq

/-- A value bound in a module namespace: a model class or some foreign
object. -/
inductive Obj where
  | model (id : ModelId)
  | plainObj (tag : Nat)
deriving DecidableEq

/-- The process-wide mutable state: the object heap of model classes, the
Django app cache, `sys.modules`, and the partition registry
(`partitioned_targets` maps a target model to a reference into the mutable
list heap `lists`). -/
structure PState where
  nextId : Nat := 0
  models : List (ModelId × ModelData) := []
  app_models : List ((String × String) × ModelId) := []
  modules : List (String × List (String × Obj)) := []
  partitioned_targets : List (ModelId × Nat) := []
  lists : List (List PFK) := []
deriving DecidableEq

/-- Exceptions raised by the code, one constructor per raise site:
`assertionAbstract` and `assertionMultiTarget` are the AssertionErrors of the
two declaration-time checks (the ConfigurationError class of the spec),
`attributeExists` is the AttributeError of the module-name collision (the
NameCollisionError of the spec), `attributeNoManager` the AttributeError for
a source model without a partition manager (the MissingManagerError of the
spec).  `keyError` stands for failing dictionary lookups
(`sys.modules[...]`), `recursionError` for fuel exhaustion. -/
inductive PError where
  | assertionAbstract (who : String)
  | assertionMultiTarget (who : String)
  | attributeExists (nm : String) (mod : String)
  | attributeNoManager (who : String)
  | keyError
  | recursionError
deriving DecidableEq

/-- First-match association-list lookup (Python dict read). -/
def lookupA {κ α : Type} [DecidableEq κ] : List (κ × α) → κ → Option α
  | [], _ => none
  | (k, v) :: rest, q => if q = k then some v else lookupA rest q

/-- Overwrite-or-insert (Python dict write). -/
def setA {κ α : Type} [DecidableEq κ] : List (κ × α) → κ → α → List (κ × α)
  | [], k, v => [(k, v)]
  | (k0, v0) :: rest, k, v =>
    if k = k0 then (k, v) :: rest else (k0, v0) :: setA rest k v

/-- Update the value stored at a key in place. -/
def updList {κ α : Type} [DecidableEq κ] (l : List (κ × α)) (k : κ) (f : α → α) :
    List (κ × α) :=
  l.map fun p => if p.1 = k then (p.1, f p.2) else p

/-- Update one cell of the mutable list heap. -/
def updNth {α : Type} : List α → Nat → (α → α) → List α
  | [], _, _ => []
  | x :: rest, 0, f => f x :: rest
  | x :: rest, i + 1, f => x :: updNth rest i f

def getModelData (s : PState) (m : ModelId) : Option ModelData :=
  lookupA s.models m

def updModel (s : PState) (m : ModelId) (f : ModelData → ModelData) : PState :=
  { s with models := updList s.models m f }

/-- `getattr(sys.modules[mod], n, None)` -/
def moduleGet (s : PState) (mod n : String) : Option Obj :=
  (lookupA s.modules mod).bind fun dict => lookupA dict n

/-- `model_name.lower()`: Django app-cache keys are lowercased. -/
def lowerName (str : String) : String :=
  String.mk (str.data.map Char.toLower)

/-- `django.db.models.get_model(app_label, model_name)`, modelled at its
interface: a lowercased lookup in the app cache. -/
def get_model (s : PState) (app_label model_name : String) : Option ModelId :=
  lookupA s.app_models (app_label, lowerName model_name)

/-- `get_partition_key(cls, None)`: read the PARTITION_KEY attribute. -/
def get_partition_key (s : PState) (cls : ModelId) : Option String :=
  (getModelData s cls).bind fun d => d.partition_key

/-- Python truthiness of the partition-key attribute value as used in
`not get_partition_key(cls, None)`: absent or empty string are falsy. -/
def truthyKey : Option String → Bool
  | none => false
  | some st => st ≠ ""

/-- `cls._meta.fields`: the cached field-name list if filled, otherwise the
fields of the concrete parents followed by the local fields.  All models
reachable here have only abstract bases, so `parents` is `[]` and the parent
part is computed one level deep. -/
def computedFields (s : PState) (d : ModelData) : List Field :=
  (d.parents.flatMap fun p =>
    match getModelData s p with
    | some pd => pd.field_name_cache.getD pd.local_fields
    | none => []) ++ d.local_fields

def metaFields (s : PState) (m : ModelId) : List Field :=
  match getModelData s m with
  | none => []
  | some d => d.field_name_cache.getD (computedFields s d)

/-- `Options.add_field`, modelled at its interface: append to
`local_fields` and invalidate the field caches. -/
def add_field (s : PState) (cls : ModelId) (f : Field) : PState :=
  updModel s cls fun d =>
    { d with local_fields := d.local_fields ++ [f],
             field_cache := none, field_name_cache := none }

/-- `PartitionRegistry.register_foreign_key`:
`partitioned_targets.setdefault(target, []).append(fk)`.  If the target
has a stored list already, append to that same (aliased) list; otherwise
allocate a fresh list holding the fk. -/
def register_foreign_key (s : PState) (fk : PFK) : PState :=
  match lookupA s.partitioned_targets fk.tgt with
  | some r => { s with lists := updNth s.lists r (fun l => l ++ [fk]) }
  | none =>
    { s with
      partitioned_targets := (fk.tgt, s.lists.length) :: s.partitioned_targets,
      lists := s.lists ++ [[fk]] }

/-- The value returned by `foreign_keys_referencing`: either an alias of the
stored mutable list, or a fresh empty list (the `.get(model, [])` default). -/
inductive PyList where
  | ref (r : Nat)
  | fresh (l : List PFK)
deriving DecidableEq

/-- `PartitionRegistry.foreign_keys_referencing`:
`return self.partitioned_targets.get(model, [])` -- the stored list itself,
not a copy. -/
def foreign_keys_referencing (s : PState) (model : ModelId) : PyList :=
  match lookupA s.partitioned_targets model with
  | some r => .ref r
  | none => .fresh []

/-- Reading the current contents of a Python list value in a state. -/
def PyList.contents (s : PState) : PyList → List PFK
  | .ref r => s.lists.getD r []
  | .fresh l => l

/-- `PartitionManager.contribute_to_class`: the owning model must be
abstract; on success record the manager on the model (both the named
attribute and `_partition_manager` are the same object, identified by the
model it is attached to). -/
def PartitionManager.contribute_to_class (s : PState) (model : ModelId) :
    PState × Except PError Unit :=
  match getModelData s model with
  | none => (s, .error .keyError)
  | some d =>
    if ¬ d.abstract then
      (s, .error (.assertionAbstract d.object_name))
    else
      (updModel s model (fun d => { d with partition_manager := some model }),
       .ok ())

/-- `PartitionForeignKey.contribute_to_class` for the placeholder object
`pid` with target `tgt` and stored kwargs: the class must be abstract unless
it carries a truthy partition-key marker; any other PartitionForeignKey on
the class must point at the same target; then the placeholder records its
owner and name, registers itself, and is added as a field. -/
def PartitionForeignKey.contribute_to_class (s : PState) (pid : Nat)
    (tgt : ModelId) (kwargs : FieldKwargs) (cls : ModelId) (fname : String) :
    PState × Except PError Unit :=
  match getModelData s cls with
  | none => (s, .error .keyError)
  | some d =>
    if ¬ d.abstract ∧ ¬ truthyKey d.partition_key then
      (s, .error (.assertionAbstract d.object_name))
    else if (metaFields s cls).any
        (fun f => f.isPFK ∧ f.pfkTo ≠ some tgt) then
      (s, .error (.assertionMultiTarget d.object_name))
    else
      let s := register_foreign_key s ⟨pid, cls, fname, tgt, kwargs⟩
      let s := add_field s cls (.pfk pid fname tgt kwargs)
      (s, .ok ())

/-- Constructing a PartitionForeignKey object (allocating its identity) and
attaching it to a class under declaration. -/
def PartitionForeignKey.declare (s : PState) (tgt : ModelId)
    (kwargs : FieldKwargs) (cls : ModelId) (fname : String) :
    PState × Except PError Unit :=
  PartitionForeignKey.contribute_to_class
    { s with nextId := s.nextId + 1 } s.nextId tgt kwargs cls fname

/-- Declaring a new model class: allocate it; Django registers non-abstract
classes in the app cache. -/
def newClass (s : PState) (object_name app_label module : String)
    (abstract : Bool) (partition_key : Option String := none) :
    PState × ModelId :=
  let id := s.nextId
  let nd : ModelData :=
    { object_name := object_name, app_label := app_label, module := module,
      abstract := abstract, partition_key := partition_key }
  ({ s with
      nextId := s.nextId + 1,
      models := (id, nd) :: s.models,
      app_models :=
        if abstract then s.app_models
        else ((app_label, lowerName object_name), id) :: s.app_models }, id)

/-- Abstract-base inheritance: copy the base fields onto the new class by
re-running each field contribution.  A copied PartitionForeignKey is a new
object (fresh `pid`, Django copies fields from abstract parents) and its
`contribute_to_class` runs its checks and registers it again. -/
def copyFields (s : PState) (fs : List Field) (cls : ModelId) :
    PState × Except PError Unit :=
  match fs with
  | [] => (s, .ok ())
  | .plain n :: rest => copyFields (add_field s cls (.plain n)) rest cls
  | .fk n tgt kw :: rest => copyFields (add_field s cls (.fk n tgt kw)) rest cls
  | .pfk _ n tgt kw :: rest =>
    let pid := s.nextId
    let s := { s with nextId := s.nextId + 1 }
    match PartitionForeignKey.contribute_to_class s pid tgt kw cls n with
    | (s, .error e) => (s, .error e)
    | (s, .ok ()) => copyFields s rest cls

/-- The attribute set of a freshly synthesized concrete class: named `nm`,
same app label, the given module, non-abstract, carrying the partition key,
inheriting the template's partition manager attribute. -/
def newPartitionData (nm : String) (td : ModelData) (key mp : String) :
    ModelData :=
  { object_name := nm, app_label := td.app_label, module := mp,
    abstract := false, partition_key := some key,
    partition_manager := td.partition_manager }

/-- Allocate a new class object on the heap. -/
def allocModel (s : PState) (nd : ModelData) : PState :=
  { s with nextId := s.nextId + 1, models := (s.nextId, nd) :: s.models }

/-- Embeds `create_model(name, bases=(template,), attrs with the partition
key, module_path)`, with the Django metaclass modelled at its interface: the
new class inherits the template attributes (partition manager), gets the
partition key attribute, the abstract-base fields are contributed to it, and
it is registered in the app cache; if its lowercased name is already
registered, the first registration is kept and returned. -/
def create_model (s : PState) (nm : String) (tmpl : ModelId) (key : String)
    (module_path : String) : PState × Except PError ModelId :=
  match getModelData s tmpl with
  | none => (s, .error .keyError)
  | some td =>
    let newId := s.nextId
    let s1 := allocModel s (newPartitionData nm td key module_path)
    match copyFields s1 td.local_fields newId with
    | (s2, .error e) => (s2, .error e)
    | (s2, .ok ()) =>
      let ckey := (td.app_label, lowerName nm)
      match lookupA s2.app_models ckey with
      | some existing => (s2, .ok existing)
      | none =>
        ({ s2 with app_models := (ckey, newId) :: s2.app_models }, .ok newId)

/-- The manager-attachment loop of `_ensure_partition`: the default
`get_managers` contributes a single standard manager named objects. -/
def contribute_managers (s : PState) (m : ModelId) : PState :=
  updModel s m fun d => { d with managers := d.managers ++ ["objects"] }

/-- Modelled from the spec: `point(child, name, model, **kwargs)` of the
external dfk library (not under src/).  Per the spec, the placeholder is
rewritten into a concrete foreign key field on the dependent concrete
entity, pointing at the newly created entity and carrying over the declared
options; resolution replaces the field record rather than mutating it.
Modelled as: replace the field(s) named `fname` on the class by a concrete
foreign key, with the usual cache invalidation of a field change. -/
def point (s : PState) (cls : ModelId) (fname : String) (tgt : ModelId)
    (kwargs : FieldKwargs) : PState :=
  updModel s cls fun d =>
    { d with
      local_fields :=
        (d.local_fields.filter fun f => f.name ≠ fname) ++ [.fk fname tgt kwargs],
      field_cache := none, field_name_cache := none }

/-- `PartitionManager._fill_fields_cache`: rebuild the field caches from the
concrete parents and the local fields, skipping PartitionForeignKeys. -/
def fill_fields_cache (s : PState) (m : ModelId) : PState :=
  match getModelData s m with
  | none => s
  | some d =>
    let parentPart : List (Field × Option ModelId) :=
      d.parents.flatMap fun p =>
        match getModelData s p with
        | some pd =>
          ((pd.field_name_cache.getD (computedFields s pd)).filter
            (fun f => ¬ f.isPFK)).map fun f => (f, some p)
        | none => []
    let cache :=
      parentPart ++
        (d.local_fields.filter fun f => ¬ f.isPFK).map (fun f => (f, none))
    updModel s m fun d =>
      { d with field_cache := some cache,
               field_name_cache := some (cache.map Prod.fst) }

/-- Remove the first PartitionForeignKey-typed field with the given name
(`lst.remove(field); break` in the cleanup loop). -/
def removeFirstPFKNamed (l : List Field) (n : String) : List Field :=
  match l with
  | [] => []
  | f :: rest =>
    if f.isPFK ∧ f.name = n then rest else f :: removeFirstPFKNamed rest n

/-- Python set insertion for `pfks_to_remove` (identity-keyed; order of a
Python set is arbitrary, but the cleanup below depends only on the multiset
of names, so insertion order is used). -/
def insertPFK (l : List PFK) (p : PFK) : List PFK :=
  if l.any (fun q => q.pid = p.pid) then l else l ++ [p]

/-- The cleanup loop of `_ensure_partition`: for each collected placeholder,
remove the first PartitionForeignKey-typed field of that name from
`child._meta.fields` (the cached property list, mutated in place) and from
`child._meta.local_fields`. -/
def remove_pfks (s : PState) (child : ModelId) (pkfs : List PFK) : PState :=
  pkfs.foldl
    (fun s pkf =>
      match getModelData s child with
      | none => s
      | some d =>
        let flds := d.field_name_cache.getD (computedFields s d)
        let s := updModel s child fun d =>
          { d with field_name_cache := some (removeFirstPFKNamed flds pkf.fname) }
        updModel s child fun d =>
          { d with local_fields := removeFirstPFKNamed d.local_fields pkf.fname })
    s

mutual

/-- `PartitionManager.get_partition(partition_key, create=True)`: look the
deterministic name up in the app cache; on a miss with `create` synthesize,
otherwise return the lookup result. -/
def get_partition : Nat → PState → ModelId → String → Bool →
    PState × Except PError (Option ModelId)
  | 0, s, _, _, _ => (s, .error .recursionError)
  | fuel + 1, s, mgrModel, key, create =>
    match getModelData s mgrModel with
    | none => (s, .error .keyError)
    | some d =>
      let model_name := d.object_name ++ "_" ++ key
      let m := get_model s d.app_label model_name
      if m = none ∧ create then
        match ensure_partition fuel s mgrModel key with
        | (s1, .ok mid) => (s1, .ok (some mid))
        | (s1, .error e) => (s1, .error e)
      else
        (s, .ok m)

/-- `PartitionManager._ensure_partition`: create the concrete model, attach
the managers, bind the name in the owning module (refusing to overwrite an
existing binding), then resolve every PartitionForeignKey referencing the
template by ensuring the dependent partition and rewriting the placeholder,
and finally drop leftover placeholder fields from the last child processed. -/
def ensure_partition : Nat → PState → ModelId → String →
    PState × Except PError ModelId
  | 0, s, _, _ => (s, .error .recursionError)
  | fuel + 1, s, mgrModel, key =>
    match getModelData s mgrModel with
    | none => (s, .error .keyError)
    | some d =>
      let model_name := d.object_name ++ "_" ++ key
      match create_model s model_name mgrModel key d.module with
      | (s1, .error e) => (s1, .error e)
      | (s1, .ok model) =>
        let s2 := contribute_managers s1 model
        match lookupA s2.modules d.module with
        | none => (s2, .error .keyError)
        | some mdict =>
          match lookupA mdict model_name with
          | some _ => (s2, .error (.attributeExists model_name d.module))
          | none =>
            let s3 : PState :=
              { s2 with modules := setA s2.modules d.module
                          (setA mdict model_name (.model model)) }
            let pl := foreign_keys_referencing s3 mgrModel
            match pfk_loop fuel s3 pl 0 key model [] none with
            | (s4, .error e) => (s4, .error e)
            | (s4, .ok (pkfs, lastChild)) =>
              let s5 := match lastChild with
                        | none => s4
                        | some child => remove_pfks s4 child pkfs
              (s5, .ok model)

/-- The `for pfk in self.registry.foreign_keys_referencing(self.model)` loop
of `_ensure_partition`, as Python index-based iteration over the live list:
each step re-reads the list, checks the source model has a partition
manager, ensures the dependent partition via that manager, rewrites the
placeholder with `point` and refills the field caches of the child. -/
def pfk_loop : Nat → PState → PyList → Nat → String → ModelId →
    List PFK → Option ModelId →
    PState × Except PError (List PFK × Option ModelId)
  | 0, s, pl, i, _, _, acc, lastChild =>
    match (pl.contents s).drop i with
    | [] => (s, .ok (acc, lastChild))
    | _ :: _ => (s, .error .recursionError)
  | fuel + 1, s, pl, i, key, newModel, acc, lastChild =>
    match (pl.contents s).drop i with
    | [] => (s, .ok (acc, lastChild))
    | pfk :: _ =>
      match getModelData s pfk.cls with
      | none => (s, .error .keyError)
      | some cd =>
        match cd.partition_manager with
        | none => (s, .error (.attributeNoManager cd.object_name))
        | some mgr2 =>
          match get_partition fuel s mgr2 key true with
          | (s1, .error e) => (s1, .error e)
          | (s1, .ok none) => (s1, .error .keyError)
          | (s1, .ok (some child)) =>
            let s2 := point s1 child pfk.fname newModel pfk.kwargs
            let acc2 := insertPFK acc pfk
            let s3 := fill_fields_cache s2 child
            pfk_loop fuel s3 pl (i + 1) key newModel acc2 (some child)

end

/-! Concrete declaration scenarios, mirroring the test project
(src/testproject/testapp/models.py) and the test suite
(src/parting/tests.py).  Each is built by running the declaration-time
operations, exactly as a Django class statement would. -/

/-- The fk options of the Star template's PartitionForeignKey. -/
def kwStar : FieldKwargs := { related_name := some "stars" }

/-- Declaring the testapp templates: abstract `Tweet` with fields json and
created and a partition manager, then abstract `Star` with a user field and
a PartitionForeignKey to `Tweet`, and its own manager.  Ids: Tweet = 0,
Star = 1, the placeholder object = 2. -/
def c1Build : PState × Except PError Unit :=
  let s : PState := { modules := [("testapp.models", [])] }
  let (s, tweetId) := newClass s "Tweet" "testapp" "testapp.models" true none
  let s := add_field s tweetId (.plain "json")
  let s := add_field s tweetId (.plain "created")
  match PartitionManager.contribute_to_class s tweetId with
  | (s, .error e) => (s, .error e)
  | (s, .ok ()) =>
    let (s, starId) := newClass s "Star" "testapp" "testapp.models" true none
    let s := add_field s starId (.plain "user")
    match PartitionForeignKey.declare s tweetId kwStar starId "tweet" with
    | (s, .error e) => (s, .error e)
    | (s, .ok ()) =>
      PartitionManager.contribute_to_class s starId

def c1State : PState := c1Build.1

/-- Declaring a `Tweet` template with a manager and a dependent `Star`
template with a PartitionForeignKey but no partition manager of its own. -/
def c5Build : PState × Except PError Unit :=
  let s : PState := { modules := [("testapp.models", [])] }
  let (s, tweetId) := newClass s "Tweet" "testapp" "testapp.models" true none
  let s := add_field s tweetId (.plain "json")
  match PartitionManager.contribute_to_class s tweetId with
  | (s, .error e) => (s, .error e)
  | (s, .ok ()) =>
    let (s, starId) := newClass s "Star" "testapp" "testapp.models" true none
    PartitionForeignKey.declare s tweetId {} starId "tweet"

def c5State : PState := c5Build.1

/-- Declaring only the `Tweet` template with a manager (id 0). -/
def tweetOnlyBuild : PState × Except PError Unit :=
  let s : PState := { modules := [("testapp.models", [])] }
  let (s, tweetId) := newClass s "Tweet" "testapp" "testapp.models" true none
  let s := add_field s tweetId (.plain "json")
  PartitionManager.contribute_to_class s tweetId

def tweetOnly : PState := tweetOnlyBuild.1

/-- The test_no_overwrite scenario: a foreign object is pre-bound under the
name Tweet_foo in the owning module. -/
def c4State : PState :=
  { tweetOnly with
    modules := [("testapp.models", [("Tweet_foo", .plainObj 99)])] }

/-- A state in which the foo partition of `Tweet` was already fully created
(by another actor): the app cache and the module both hold Tweet_foo. -/
def c3State : PState := (get_partition 6 tweetOnly 0 "foo" true).1

/-- The test_multiple_fks_good scenario: abstract `ParentModel` (id 0) with
a manager, abstract `ChildPartitionModel` (id 1) with two
PartitionForeignKeys to the same target and a manager. -/
def c9Build : PState × Except PError Unit :=
  let s : PState := { modules := [("testapp.models", [])] }
  let (s, parentId) :=
    newClass s "ParentModel" "testapp" "testapp.models" true none
  match PartitionManager.contribute_to_class s parentId with
  | (s, .error e) => (s, .error e)
  | (s, .ok ()) =>
    let (s, childId) :=
      newClass s "ChildPartitionModel" "testapp" "testapp.models" true none
    match PartitionForeignKey.declare s parentId
        { related_name := some "parent_1_set" } childId "parent_1" with
    | (s, .error e) => (s, .error e)
    | (s, .ok ()) =>
      match PartitionForeignKey.declare s parentId
          { related_name := some "parent_2_set" } childId "parent_2" with
      | (s, .error e) => (s, .error e)
      | (s, .ok ()) =>
        PartitionManager.contribute_to_class s childId

def c9State : PState := c9Build.1

/-- The test_multiple_fks_bad scenario: two distinct target templates and a
child declaring one PartitionForeignKey to each. -/
def c9aBuild : PState × Except PError Unit :=
  let s : PState := {}
  let (s, p1) := newClass s "ParentModel1" "testapp" "testapp.models" true none
  match PartitionManager.contribute_to_class s p1 with
  | (s, .error e) => (s, .error e)
  | (s, .ok ()) =>
    let (s, p2) :=
      newClass s "ParentModel2" "testapp" "testapp.models" true none
    match PartitionManager.contribute_to_class s p2 with
    | (s, .error e) => (s, .error e)
    | (s, .ok ()) =>
      let (s, c) :=
        newClass s "ChildPartitionModel" "testapp" "testapp.models" true none
      match PartitionForeignKey.declare s p1 {} c "parent_1" with
      | (s, .error e) => (s, .error e)
      | (s, .ok ()) => PartitionForeignKey.declare s p2 {} c "parent_2"

/-- The state of the test_multiple_fks_bad scenario just before the second
placeholder (to a different target) is attached: templates ParentModel1
(id 0) and ParentModel2 (id 1) with managers, ChildPartitionModel (id 2)
holding one placeholder (pid 3) to ParentModel1. -/
def c9aState : PState :=
  let s : PState := {}
  let (s, p1) := newClass s "ParentModel1" "testapp" "testapp.models" true none
  match PartitionManager.contribute_to_class s p1 with
  | (s, _) =>
    let (s, p2) :=
      newClass s "ParentModel2" "testapp" "testapp.models" true none
    match PartitionManager.contribute_to_class s p2 with
    | (s, _) =>
      let (s, c) :=
        newClass s "ChildPartitionModel" "testapp" "testapp.models" true none
      (PartitionForeignKey.declare s 0 {} c "parent_1").1

/-- A non-abstract class with no partition-key marker (the BadModel of the
tests). -/
def c8Build : PState × ModelId :=
  newClass {} "BadModel" "testapp" "testapp.models" false none

/-- A non-abstract class carrying the truthy partition-key marker foo, as a
generated partition would. -/
def c10aBuild : PState × ModelId :=
  newClass {} "Tweet_foo" "testapp" "testapp.models" false (some "foo")

/-- A non-abstract class carrying an empty-string partition-key marker, as
the generated partition for the key "" would. -/
def c10bBuild : PState × ModelId :=
  newClass {} "Tweet_" "testapp" "testapp.models" false (some "")

/-- Two placeholder objects with the same target, for the registry aliasing
scenario. -/
def pA : PFK := { pid := 10, cls := 1, fname := "x", tgt := 0, kwargs := {} }

def pB : PFK := { pid := 11, cls := 2, fname := "y", tgt := 0, kwargs := {} }

/-- A registry state with one placeholder registered for target 0. -/
def s6 : PState := register_foreign_key {} pA

/-! Invariants used by the monotonicity development. -/

/-- Heap well-formedness: every allocated model id is below the allocator. -/
def WFids (s : PState) : Prop := ∀ p ∈ s.models, p.1 < s.nextId

instance (s : PState) : Decidable (WFids s) := by
  unfold WFids; infer_instance

/-- The identity-determining attributes of a model class never change after
creation. -/
def staticEq (d d' : ModelData) : Prop :=
  d'.object_name = d.object_name ∧ d'.app_label = d.app_label ∧
    d'.module = d.module

/-- Monotone evolution of the process-wide state: the allocator only grows,
app-cache entries and module bindings are never removed or overwritten, and
every existing model keeps its static attributes. -/
def Mono (s s' : PState) : Prop :=
  s.nextId ≤ s'.nextId ∧
  (∀ k v, lookupA s.app_models k = some v → lookupA s'.app_models k = some v) ∧
  (∀ mo n o, moduleGet s mo n = some o → moduleGet s' mo n = some o) ∧
  (∀ id d, lookupA s.models id = some d →
    ∃ d', lookupA s'.models id = some d' ∧ staticEq d d')

/-- A state step of the engine: assuming a well-formed heap, the state
evolves monotonically and stays well-formed. -/
def Step (s s' : PState) : Prop := WFids s → Mono s s' ∧ WFids s'

/-- Postcondition of one `ensure_partition` call: the state steps; on
success the returned model is registered in the app cache under the
deterministic lowercased name; and a missing-manager error can only escape
after the parent was created and bound (the name is bound in the module and
registered in the app cache even in the error state). -/
def EnsurePost (s : PState) (T : ModelId) (K : String) (s' : PState)
    (r : Except PError ModelId) : Prop :=
  Step s s' ∧
  (WFids s → ∀ m, r = .ok m → ∀ td, getModelData s T = some td →
    lookupA s'.app_models
      (td.app_label, lowerName (td.object_name ++ "_" ++ K)) = some m) ∧
  (WFids s → ∀ w, r = .error (.attributeNoManager w) →
    ∀ td, getModelData s T = some td →
    ∃ mid,
      moduleGet s' td.module (td.object_name ++ "_" ++ K)
        = some (.model mid) ∧
      lookupA s'.app_models
        (td.app_label, lowerName (td.object_name ++ "_" ++ K)) = some mid)

/-- Postcondition of one `get_partition` call: the state steps and a
returned concrete model is registered in the app cache under the
deterministic lowercased name. -/
def GpPost (s : PState) (T : ModelId) (K : String) (s' : PState)
    (r : Except PError (Option ModelId)) : Prop :=
  Step s s' ∧
  (WFids s → ∀ m, r = .ok (some m) → ∀ td, getModelData s T = some td →
    lookupA s'.app_models
      (td.app_label, lowerName (td.object_name ++ "_" ++ K)) = some m)

/-! Generic association-list lemmas. -/

theorem lookupA_nil {κ α : Type} [DecidableEq κ] (q : κ) :
    lookupA ([] : List (κ × α)) q = none := rfl

theorem lookupA_cons {κ α : Type} [DecidableEq κ] (p : κ × α)
    (l : List (κ × α)) (q : κ) :
    lookupA (p :: l) q = if q = p.1 then some p.2 else lookupA l q := by
  cases p; rfl

theorem lookupA_mem {κ α : Type} [DecidableEq κ] {l : List (κ × α)} {q : κ}
    {v : α} (h : lookupA l q = some v) : (q, v) ∈ l := by
  induction l with
  | nil => simp [lookupA_nil] at h
  | cons p rest ih =>
    rw [lookupA_cons] at h
    by_cases hq : q = p.1
    · rw [if_pos hq] at h
      cases p
      cases h
      subst hq
      exact List.mem_cons_self _ _
    · rw [if_neg hq] at h
      exact List.mem_cons_of_mem _ (ih h)

theorem lookupA_cons_of_none {κ α : Type} [DecidableEq κ] {l : List (κ × α)}
    {k : κ} (v : α) (hk : lookupA l k = none) {q : κ} {w : α}
    (h : lookupA l q = some w) : lookupA ((k, v) :: l) q = some w := by
  rw [lookupA_cons]
  rcases eq_or_ne q k with rfl | hq
  · rw [h] at hk; cases hk
  · rw [if_neg hq]; exact h

theorem lookupA_setA_self {κ α : Type} [DecidableEq κ] (l : List (κ × α))
    (k : κ) (v : α) : lookupA (setA l k v) k = some v := by
  induction l with
  | nil => simp [setA, lookupA_cons]
  | cons p rest ih =>
    obtain ⟨k0, v0⟩ := p
    rw [setA]
    by_cases hk : k = k0
    · rw [if_pos hk, lookupA_cons, if_pos rfl]
    · rw [if_neg hk, lookupA_cons, if_neg hk]
      exact ih

theorem lookupA_setA_ne {κ α : Type} [DecidableEq κ] (l : List (κ × α))
    (k : κ) (v : α) {q : κ} (hq : q ≠ k) :
    lookupA (setA l k v) q = lookupA l q := by
  induction l with
  | nil => simp [setA, lookupA_cons, lookupA_nil, hq]
  | cons p rest ih =>
    obtain ⟨k0, v0⟩ := p
    simp only [setA]
    by_cases hk : k = k0
    · subst hk
      simp [lookupA_cons, hq]
    · by_cases hq0 : q = k0 <;> simp [hk, lookupA_cons, hq0, ih]

theorem lookupA_updList {κ α : Type} [DecidableEq κ] (l : List (κ × α))
    (k : κ) (f : α → α) (q : κ) :
    lookupA (updList l k f) q =
      if q = k then (lookupA l q).map f else lookupA l q := by
  induction l with
  | nil => by_cases hq : q = k <;> simp [updList, lookupA_nil, hq]
  | cons p rest ih =>
    obtain ⟨k0, v0⟩ := p
    simp only [updList, List.map_cons] at *
    by_cases hk : k0 = k
    · subst hk
      by_cases hq : q = k0 <;> simp [lookupA_cons, hq, ih]
    · by_cases hq : q = k0
      · subst hq
        have hqk : q ≠ k := hk
        simp [lookupA_cons, hk, hqk]
      · simp [lookupA_cons, hk, hq, ih]

theorem mem_updList {κ α : Type} [DecidableEq κ] {l : List (κ × α)} {k : κ}
    {f : α → α} {p : κ × α} (h : p ∈ updList l k f) :
    ∃ q ∈ l, p.1 = (q : κ × α).1 := by
  rw [updList] at h
  obtain ⟨q, hq, hpq⟩ := List.mem_map.mp h
  refine ⟨q, hq, ?_⟩
  by_cases hk : q.1 = k
  · rw [if_pos hk] at hpq; rw [← hpq]
  · rw [if_neg hk] at hpq; rw [← hpq]

theorem getD_updNth {α : Type} (l : List α) (i : Nat) (f : α → α) (d : α)
    (h : i < l.length) : (updNth l i f).getD i d = f (l.getD i d) := by
  induction l generalizing i with
  | nil => simp at h
  | cons x rest ih =>
    cases i with
    | zero => simp [updNth]
    | succ j =>
      simp only [updNth, List.getD_cons_succ]
      exact ih j (by simpa using h)

theorem getD_append_lt {α : Type} (l l2 : List α) (i : Nat) (d : α)
    (h : i < l.length) : (l ++ l2).getD i d = l.getD i d := by
  induction l generalizing i with
  | nil => simp at h
  | cons x rest ih =>
    cases i with
    | zero => simp
    | succ j =>
      simp only [List.cons_append, List.getD_cons_succ]
      exact ih j (by simpa using h)

/-! The step algebra: reflexivity, transitivity, and one lemma per
primitive state operation. -/

theorem staticEq_refl (d : ModelData) : staticEq d d := ⟨rfl, rfl, rfl⟩

theorem staticEq_trans {a b c : ModelData} (h1 : staticEq a b)
    (h2 : staticEq b c) : staticEq a c := by
  obtain ⟨x1, y1, z1⟩ := h1
  obtain ⟨x2, y2, z2⟩ := h2
  exact ⟨x2.trans x1, y2.trans y1, z2.trans z1⟩

theorem mono_refl (s : PState) : Mono s s :=
  ⟨Nat.le_refl _, fun _ _ h => h, fun _ _ _ h => h,
   fun _ d h => ⟨d, h, staticEq_refl d⟩⟩

theorem mono_trans {a b c : PState} (h1 : Mono a b) (h2 : Mono b c) :
    Mono a c := by
  obtain ⟨n1, a1, m1, s1⟩ := h1
  obtain ⟨n2, a2, m2, s2⟩ := h2
  refine ⟨Nat.le_trans n1 n2, fun k v h => a2 _ _ (a1 _ _ h),
    fun mo n o h => m2 _ _ _ (m1 _ _ _ h), fun id d h => ?_⟩
  obtain ⟨d1, hb, he⟩ := s1 id d h
  obtain ⟨d2, hc, he2⟩ := s2 id d1 hb
  exact ⟨d2, hc, staticEq_trans he he2⟩

theorem step_refl (s : PState) : Step s s := fun h => ⟨mono_refl s, h⟩

theorem step_trans {a b c : PState} (h1 : Step a b) (h2 : Step b c) :
    Step a c := by
  intro hw
  obtain ⟨m1, w1⟩ := h1 hw
  obtain ⟨m2, w2⟩ := h2 w1
  exact ⟨mono_trans m1 m2, w2⟩

/-- A state whose heap, app cache and modules are untouched steps. -/
theorem step_of_untouched {s s' : PState} (hm : s'.models = s.models)
    (ha : s'.app_models = s.app_models) (hmo : s'.modules = s.modules)
    (hn : s.nextId ≤ s'.nextId) : Step s s' := by
  intro hw
  refine ⟨⟨hn, ?_, ?_, ?_⟩, ?_⟩
  · intro k v h; rw [ha]; exact h
  · intro mo n o h
    unfold moduleGet at *
    rw [hmo]; exact h
  · intro id d h
    exact ⟨d, by rw [hm]; exact h, staticEq_refl d⟩
  · intro p hp
    rw [hm] at hp
    exact Nat.lt_of_lt_of_le (hw p hp) hn

theorem step_register_foreign_key (s : PState) (fk : PFK) :
    Step s (register_foreign_key s fk) := by
  unfold register_foreign_key
  cases lookupA s.partitioned_targets fk.tgt <;>
    exact step_of_untouched rfl rfl rfl (Nat.le_refl _)

theorem step_updModel (s : PState) (m : ModelId) (f : ModelData → ModelData)
    (hf : ∀ d, staticEq d (f d)) : Step s (updModel s m f) := by
  intro hw
  refine ⟨⟨Nat.le_refl _, fun k v h => h, fun mo n o h => h, ?_⟩, ?_⟩
  · intro id d h
    show ∃ d', lookupA (updList s.models m f) id = some d' ∧ staticEq d d'
    rw [lookupA_updList]
    by_cases hid : id = m
    · rw [if_pos hid, h]
      exact ⟨f d, rfl, hf d⟩
    · rw [if_neg hid]
      exact ⟨d, h, staticEq_refl d⟩
  · intro p hp
    obtain ⟨q, hq, hkey⟩ := mem_updList hp
    rw [hkey]
    exact hw q hq

theorem step_add_field (s : PState) (cls : ModelId) (f : Field) :
    Step s (add_field s cls f) :=
  step_updModel _ _ _ (fun _ => ⟨rfl, rfl, rfl⟩)

theorem step_contribute_managers (s : PState) (m : ModelId) :
    Step s (contribute_managers s m) :=
  step_updModel _ _ _ (fun _ => ⟨rfl, rfl, rfl⟩)

theorem step_point (s : PState) (cls : ModelId) (fname : String)
    (tgt : ModelId) (kw : FieldKwargs) : Step s (point s cls fname tgt kw) :=
  step_updModel _ _ _ (fun _ => ⟨rfl, rfl, rfl⟩)

theorem step_fill_fields_cache (s : PState) (m : ModelId) :
    Step s (fill_fields_cache s m) := by
  unfold fill_fields_cache
  cases getModelData s m with
  | none => exact step_refl s
  | some d => exact step_updModel _ _ _ (fun _ => ⟨rfl, rfl, rfl⟩)

theorem step_remove_pfks (s : PState) (child : ModelId) (pkfs : List PFK) :
    Step s (remove_pfks s child pkfs) := by
  unfold remove_pfks
  induction pkfs generalizing s with
  | nil => exact step_refl s
  | cons p rest ih =>
    rw [List.foldl_cons]
    refine step_trans ?_ (ih _)
    cases hgd : getModelData s child with
    | none => simp only [hgd]; exact step_refl s
    | some d =>
      simp only [hgd]
      refine step_trans ?_ (step_updModel _ _ _ (fun _ => ⟨rfl, rfl, rfl⟩))
      exact step_updModel _ _ _ (fun _ => ⟨rfl, rfl, rfl⟩)

/-! Effects of field contribution and class creation. -/

theorem pfkc_app (s : PState) (pid : Nat) (tgt : ModelId) (kw : FieldKwargs)
    (cls : ModelId) (n : String) :
    (PartitionForeignKey.contribute_to_class s pid tgt kw cls n).1.app_models
      = s.app_models := by
  unfold PartitionForeignKey.contribute_to_class
  split
  · rfl
  · split
    · rfl
    · split
      · rfl
      · simp only [add_field, updModel, register_foreign_key]
        split <;> rfl

theorem pfkc_modules (s : PState) (pid : Nat) (tgt : ModelId)
    (kw : FieldKwargs) (cls : ModelId) (n : String) :
    (PartitionForeignKey.contribute_to_class s pid tgt kw cls n).1.modules
      = s.modules := by
  unfold PartitionForeignKey.contribute_to_class
  split
  · rfl
  · split
    · rfl
    · split
      · rfl
      · simp only [add_field, updModel, register_foreign_key]
        split <;> rfl

theorem step_pfkc (s : PState) (pid : Nat) (tgt : ModelId) (kw : FieldKwargs)
    (cls : ModelId) (n : String) :
    Step s (PartitionForeignKey.contribute_to_class s pid tgt kw cls n).1 := by
  unfold PartitionForeignKey.contribute_to_class
  split
  · exact step_refl s
  · split
    · exact step_refl s
    · split
      · exact step_refl s
      · exact step_trans (step_register_foreign_key _ _) (step_add_field _ _ _)

theorem copyFields_app (fs : List Field) (s : PState) (cls : ModelId) :
    (copyFields s fs cls).1.app_models = s.app_models := by
  induction fs generalizing s with
  | nil => rfl
  | cons f rest ih =>
    cases f with
    | plain n => rw [copyFields, ih, add_field, updModel]
    | fk n tgt kw => rw [copyFields, ih, add_field, updModel]
    | pfk pid n tgt kw =>
      rw [copyFields]
      cases hc : PartitionForeignKey.contribute_to_class
          { s with nextId := s.nextId + 1 } s.nextId tgt kw cls n with
      | mk s2 r =>
        have h2 : s2.app_models = s.app_models := by
          have := pfkc_app { s with nextId := s.nextId + 1 } s.nextId tgt kw cls n
          rw [hc] at this
          exact this
        cases r with
        | error e => simpa using h2
        | ok u => cases u; simpa [ih] using ih s2 ▸ h2

theorem copyFields_modules (fs : List Field) (s : PState) (cls : ModelId) :
    (copyFields s fs cls).1.modules = s.modules := by
  induction fs generalizing s with
  | nil => rfl
  | cons f rest ih =>
    cases f with
    | plain n => rw [copyFields, ih, add_field, updModel]
    | fk n tgt kw => rw [copyFields, ih, add_field, updModel]
    | pfk pid n tgt kw =>
      rw [copyFields]
      cases hc : PartitionForeignKey.contribute_to_class
          { s with nextId := s.nextId + 1 } s.nextId tgt kw cls n with
      | mk s2 r =>
        have h2 : s2.modules = s.modules := by
          have := pfkc_modules { s with nextId := s.nextId + 1 } s.nextId tgt kw cls n
          rw [hc] at this
          exact this
        cases r with
        | error e => simpa using h2
        | ok u => cases u; rw [ih s2, h2]

theorem step_bump (s : PState) : Step s { s with nextId := s.nextId + 1 } :=
  step_of_untouched rfl rfl rfl (Nat.le_succ _)

theorem step_copyFields (fs : List Field) (s : PState) (cls : ModelId) :
    Step s (copyFields s fs cls).1 := by
  induction fs generalizing s with
  | nil => exact step_refl s
  | cons f rest ih =>
    cases f with
    | plain n => rw [copyFields]; exact step_trans (step_add_field _ _ _) (ih _)
    | fk n tgt kw =>
      rw [copyFields]; exact step_trans (step_add_field _ _ _) (ih _)
    | pfk pid n tgt kw =>
      rw [copyFields]
      cases hc : PartitionForeignKey.contribute_to_class
          { s with nextId := s.nextId + 1 } s.nextId tgt kw cls n with
      | mk s2 r =>
        have hstep : Step s s2 := by
          have := step_pfkc { s with nextId := s.nextId + 1 } s.nextId tgt kw cls n
          rw [hc] at this
          exact step_trans (step_bump s) this
        cases r with
        | error e => simpa using hstep
        | ok u => cases u; exact step_trans hstep (ih s2)

theorem step_alloc (s : PState) (nd : ModelData) :
    Step s (allocModel s nd) := by
  unfold allocModel
  intro hw
  refine ⟨⟨Nat.le_succ _, fun k v h => h, fun mo n o h => h, ?_⟩, ?_⟩
  · intro id d h
    have hlt : id < s.nextId := hw _ (lookupA_mem h)
    refine ⟨d, ?_, staticEq_refl d⟩
    show lookupA ((s.nextId, nd) :: s.models) id = some d
    rw [lookupA_cons, if_neg (Nat.ne_of_lt hlt)]
    exact h
  · intro p hp
    rcases List.mem_cons.mp hp with rfl | hp2
    · exact Nat.lt_succ_self _
    · exact Nat.lt_succ_of_lt (hw p hp2)

theorem step_app_cons_absent (s : PState) (k : String × String) (v : ModelId)
    (hk : lookupA s.app_models k = none) :
    Step s { s with app_models := (k, v) :: s.app_models } := by
  intro hw
  refine ⟨⟨Nat.le_refl _, ?_, fun mo n o h => h,
    fun id d h => ⟨d, h, staticEq_refl d⟩⟩, hw⟩
  intro q w h
  exact lookupA_cons_of_none v hk h

theorem step_create_model (s : PState) (nm : String) (t : ModelId)
    (key mp : String) : Step s (create_model s nm t key mp).1 := by
  unfold create_model
  cases hgd : getModelData s t with
  | none => exact step_refl s
  | some td =>
    cases hcf : copyFields (allocModel s (newPartitionData nm td key mp))
        td.local_fields s.nextId with
    | mk s2 r =>
      have hstep : Step s s2 := by
        refine step_trans (step_alloc s (newPartitionData nm td key mp)) ?_
        have := step_copyFields td.local_fields
          (allocModel s (newPartitionData nm td key mp)) s.nextId
        rw [hcf] at this
        exact this
      cases r with
      | error e => simpa [hcf] using hstep
      | ok u =>
        cases u
        simp only [hcf]
        cases hl : lookupA s2.app_models (td.app_label, lowerName nm) with
        | some existing => simpa using hstep
        | none => exact step_trans hstep (step_app_cons_absent s2 _ _ hl)

theorem create_model_ok_cached {s s' : PState} {m : ModelId} {nm : String}
    {t : ModelId} {key mp : String} {td : ModelData}
    (hgd : getModelData s t = some td)
    (h : create_model s nm t key mp = (s', .ok m)) :
    lookupA s'.app_models (td.app_label, lowerName nm) = some m := by
  unfold create_model at h
  simp only [hgd] at h
  cases hcf : copyFields (allocModel s (newPartitionData nm td key mp))
      td.local_fields s.nextId with
  | mk s2 r =>
    rw [hcf] at h
    cases r with
    | error e => simp at h
    | ok u =>
      cases u
      cases hl : lookupA s2.app_models (td.app_label, lowerName nm) with
      | some existing =>
        simp only [hl, Prod.mk.injEq, Except.ok.injEq] at h
        obtain ⟨rfl, rfl⟩ := h
        exact hl
      | none =>
        simp only [hl, Prod.mk.injEq, Except.ok.injEq] at h
        obtain ⟨rfl, rfl⟩ := h
        show lookupA (((td.app_label, lowerName nm), s.nextId)
          :: s2.app_models) _ = _
        rw [lookupA_cons, if_pos rfl]

theorem moduleGet_of_parts {s : PState} {mo n : String}
    {mdict : List (String × Obj)} {o : Obj}
    (h1 : lookupA s.modules mo = some mdict) (h2 : lookupA mdict n = some o) :
    moduleGet s mo n = some o := by
  unfold moduleGet
  rw [h1]
  exact h2

theorem moduleGet_set_self (s : PState) (mo n : String)
    (mdict : List (String × Obj)) (v : Obj)
    (_h1 : lookupA s.modules mo = some mdict) :
    moduleGet { s with modules := setA s.modules mo (setA mdict n v) } mo n
      = some v := by
  unfold moduleGet
  simp only [lookupA_setA_self]
  exact lookupA_setA_self mdict n v

theorem step_moduleSet (s : PState) (mo n : String)
    (mdict : List (String × Obj)) (v : Obj)
    (h1 : lookupA s.modules mo = some mdict) (h2 : lookupA mdict n = none) :
    Step s { s with modules := setA s.modules mo (setA mdict n v) } := by
  intro hw
  refine ⟨⟨Nat.le_refl _, fun k w h => h, ?_,
    fun id d h => ⟨d, h, staticEq_refl d⟩⟩, hw⟩
  intro mo2 n2 o h
  unfold moduleGet at *
  rcases eq_or_ne mo2 mo with rfl | hmo
  · rw [h1] at h
    simp only [Option.bind] at h
    simp only [lookupA_setA_self, Option.bind]
    rcases eq_or_ne n2 n with rfl | hn
    · rw [h2] at h; cases h
    · rw [lookupA_setA_ne mdict n v hn]
      exact h
  · rw [lookupA_setA_ne s.modules mo (setA mdict n v) hmo]
    exact h

/-! The missing-manager error is raised only inside the dependent loop:
class creation never produces it. -/

theorem pfkc_not_noManager (s : PState) (pid : Nat) (tgt : ModelId)
    (kw : FieldKwargs) (cls : ModelId) (n : String) (s2 : PState) (w : String)
    (h : PartitionForeignKey.contribute_to_class s pid tgt kw cls n
      = (s2, .error (.attributeNoManager w))) : False := by
  unfold PartitionForeignKey.contribute_to_class at h
  revert h
  split
  · intro h; simp at h
  · split
    · intro h; simp at h
    · split
      · intro h; simp at h
      · intro h; simp at h

theorem copyFields_not_noManager (fs : List Field) (s : PState)
    (cls : ModelId) (s2 : PState) (w : String)
    (h : copyFields s fs cls = (s2, .error (.attributeNoManager w))) :
    False := by
  induction fs generalizing s with
  | nil => simp [copyFields] at h
  | cons f rest ih =>
    cases f with
    | plain n => rw [copyFields] at h; exact ih _ h
    | fk n tgt kw => rw [copyFields] at h; exact ih _ h
    | pfk pid n tgt kw =>
      rw [copyFields] at h
      cases hc : PartitionForeignKey.contribute_to_class
          { s with nextId := s.nextId + 1 } s.nextId tgt kw cls n with
      | mk s3 r =>
        rw [hc] at h
        cases r with
        | error e =>
          simp only [Prod.mk.injEq, Except.error.injEq] at h
          obtain ⟨rfl, rfl⟩ := h
          exact pfkc_not_noManager _ _ _ _ _ _ _ _ hc
        | ok u => cases u; exact ih _ h

theorem create_model_not_noManager (s : PState) (nm : String) (t : ModelId)
    (key mp : String) (s2 : PState) (w : String)
    (h : create_model s nm t key mp = (s2, .error (.attributeNoManager w))) :
    False := by
  unfold create_model at h
  cases hgd : getModelData s t with
  | none => rw [hgd] at h; simp at h
  | some td =>
    simp only [hgd] at h
    cases hcf : copyFields (allocModel s (newPartitionData nm td key mp))
        td.local_fields s.nextId with
    | mk s3 r =>
      rw [hcf] at h
      cases r with
      | error e =>
        simp only [Prod.mk.injEq, Except.error.injEq] at h
        obtain ⟨rfl, rfl⟩ := h
        exact copyFields_not_noManager _ _ _ _ _ hcf
      | ok u =>
        cases u
        cases hl : lookupA s3.app_models (td.app_label, lowerName nm) with
        | some existing => simp [hl] at h
        | none => simp [hl] at h

/-! The mutual-recursion monotonicity development. -/

theorem gp_from_ens (fuel : Nat)
    (hens : ∀ s T K s' r, ensure_partition fuel s T K = (s', r) →
      EnsurePost s T K s' r) :
    ∀ s T K c s' r, get_partition (fuel + 1) s T K c = (s', r) →
      GpPost s T K s' r := by
  intro s T K c s' r h
  unfold get_partition at h
  cases hgd : getModelData s T with
  | none =>
    rw [hgd] at h
    simp only [Prod.mk.injEq] at h
    obtain ⟨rfl, rfl⟩ := h
    exact ⟨step_refl s, fun _ m hm => absurd hm (by simp)⟩
  | some d =>
    rw [hgd] at h
    simp only [] at h
    split at h
    · cases hen : ensure_partition fuel s T K with
      | mk s1 r1 =>
        rw [hen] at h
        have hpost := hens s T K s1 r1 hen
        cases r1 with
        | ok mid =>
          simp only [Prod.mk.injEq] at h
          obtain ⟨rfl, rfl⟩ := h
          refine ⟨hpost.1, ?_⟩
          intro hw m hm td htd
          have : mid = m := by simpa using hm
          subst this
          exact hpost.2.1 hw mid rfl td htd
        | error e =>
          simp only [Prod.mk.injEq] at h
          obtain ⟨rfl, rfl⟩ := h
          exact ⟨hpost.1, fun _ m hm => absurd hm (by simp)⟩
    · simp only [Prod.mk.injEq] at h
      obtain ⟨rfl, rfl⟩ := h
      refine ⟨step_refl s, ?_⟩
      intro hw m hm td htd
      rw [htd] at hgd
      injection hgd with hdt
      subst hdt
      simpa [get_model] using hm

theorem loop_step_from (n : Nat)
    (hgp : ∀ s T K c s' r, get_partition n s T K c = (s', r) →
      GpPost s T K s' r)
    (hloop : ∀ s pl i K nm acc lc s' r,
      pfk_loop n s pl i K nm acc lc = (s', r) → Step s s') :
    ∀ s pl i K nm acc lc s' r,
      pfk_loop (n + 1) s pl i K nm acc lc = (s', r) → Step s s' := by
  intro s pl i K nm acc lc s' r h
  unfold pfk_loop at h
  cases hdrop : (pl.contents s).drop i with
  | nil =>
    rw [hdrop] at h
    simp only [Prod.mk.injEq] at h
    obtain ⟨rfl, rfl⟩ := h
    exact step_refl s
  | cons pfk rest =>
    rw [hdrop] at h
    simp only [] at h
    cases hgd : getModelData s pfk.cls with
    | none =>
      simp only [hgd, Prod.mk.injEq] at h
      obtain ⟨rfl, rfl⟩ := h
      exact step_refl s
    | some cd =>
      simp only [hgd] at h
      cases hpm : cd.partition_manager with
      | none =>
        simp only [hpm, Prod.mk.injEq] at h
        obtain ⟨rfl, rfl⟩ := h
        exact step_refl s
      | some mgr2 =>
        simp only [hpm] at h
        cases hg : get_partition n s mgr2 K true with
        | mk s1 r1 =>
          simp only [hg] at h
          have hstep1 : Step s s1 := (hgp _ _ _ _ _ _ hg).1
          cases r1 with
          | error e =>
            simp only [Prod.mk.injEq] at h
            obtain ⟨rfl, rfl⟩ := h
            exact hstep1
          | ok mo =>
            cases mo with
            | none =>
              simp only [Prod.mk.injEq] at h
              obtain ⟨rfl, rfl⟩ := h
              exact hstep1
            | some child =>
              simp only [] at h
              have hrec := hloop _ _ _ _ _ _ _ _ _ h
              refine step_trans hstep1 (step_trans (step_point s1 child
                pfk.fname nm pfk.kwargs) (step_trans ?_ hrec))
              exact step_fill_fields_cache _ _

theorem ens_from_loop (n : Nat)
    (hloop : ∀ s pl i K nm acc lc s' r,
      pfk_loop n s pl i K nm acc lc = (s', r) → Step s s') :
    ∀ s T K s' r, ensure_partition (n + 1) s T K = (s', r) →
      EnsurePost s T K s' r := by
  intro s T K s' r h
  unfold ensure_partition at h
  cases hgd : getModelData s T with
  | none =>
    rw [hgd] at h
    simp only [Prod.mk.injEq] at h
    obtain ⟨rfl, rfl⟩ := h
    exact ⟨step_refl s, fun _ m hm => absurd hm (by simp),
      fun _ w hm => absurd hm (by simp)⟩
  | some d =>
    rw [hgd] at h
    simp only [] at h
    cases hcm : create_model s (d.object_name ++ "_" ++ K) T K d.module with
    | mk s1 r1 =>
      rw [hcm] at h
      have hstep1 : Step s s1 := by
        have := step_create_model s (d.object_name ++ "_" ++ K) T K d.module
        rw [hcm] at this
        exact this
      cases r1 with
      | error e =>
        simp only [Prod.mk.injEq] at h
        obtain ⟨rfl, rfl⟩ := h
        refine ⟨hstep1, fun _ m hm => absurd hm (by simp), ?_⟩
        intro _ w hm td htd
        rw [hm] at hcm
        exact absurd hcm (fun hc =>
          create_model_not_noManager _ _ _ _ _ _ _ hc)
      | ok model =>
        simp only [] at h
        cases hmod : lookupA (contribute_managers s1 model).modules
            d.module with
        | none =>
          simp only [hmod, Prod.mk.injEq] at h
          obtain ⟨rfl, rfl⟩ := h
          exact ⟨step_trans hstep1 (step_contribute_managers s1 model),
            fun _ m hm => absurd hm (by simp),
            fun _ w hm => absurd hm (by simp)⟩
        | some mdict =>
          simp only [hmod] at h
          cases hname : lookupA mdict (d.object_name ++ "_" ++ K) with
          | some ob =>
            simp only [hname, Prod.mk.injEq] at h
            obtain ⟨rfl, rfl⟩ := h
            exact ⟨step_trans hstep1 (step_contribute_managers s1 model),
              fun _ m hm => absurd hm (by simp),
              fun _ w hm => absurd hm (by simp)⟩
          | none =>
            simp only [hname] at h
            cases hlp : pfk_loop n
                { contribute_managers s1 model with
                  modules := setA (contribute_managers s1 model).modules
                    d.module (setA mdict (d.object_name ++ "_" ++ K)
                      (.model model)) }
                (foreign_keys_referencing
                  { contribute_managers s1 model with
                    modules := setA (contribute_managers s1 model).modules
                      d.module (setA mdict (d.object_name ++ "_" ++ K)
                        (.model model)) } T)
                0 K model [] none with
            | mk s4 r4 =>
              rw [hlp] at h
              have hstep2 : Step s1 (contribute_managers s1 model) :=
                step_contribute_managers s1 model
              have hstep3 : Step (contribute_managers s1 model)
                  { contribute_managers s1 model with
                    modules := setA (contribute_managers s1 model).modules
                      d.module (setA mdict (d.object_name ++ "_" ++ K)
                        (.model model)) } :=
                step_moduleSet _ _ _ _ _ hmod hname
              have hstep4 : Step _ s4 := hloop _ _ _ _ _ _ _ _ _ hlp
              have hcached : lookupA s1.app_models
                  (d.app_label, lowerName (d.object_name ++ "_" ++ K))
                    = some model :=
                create_model_ok_cached hgd hcm
              cases r4 with
              | error e4 =>
                simp only [Prod.mk.injEq] at h
                obtain ⟨rfl, rfl⟩ := h
                refine ⟨step_trans hstep1 (step_trans hstep2
                  (step_trans hstep3 hstep4)),
                  fun _ m hm => absurd hm (by simp), ?_⟩
                intro hw w hm td htd
                rw [htd] at hgd
                cases hgd
                obtain ⟨mono1, hw1⟩ := hstep1 hw
                obtain ⟨mono2, hw2⟩ := hstep2 hw1
                obtain ⟨mono3, hw3⟩ := hstep3 hw2
                obtain ⟨mono4, hw4⟩ := hstep4 hw3
                refine ⟨model, ?_, ?_⟩
                · refine mono4.2.2.1 _ _ _ ?_
                  exact moduleGet_set_self _ _ _ _ _ hmod
                · exact mono4.2.1 _ _ (mono3.2.1 _ _ (mono2.2.1 _ _ hcached))
              | ok pr =>
                obtain ⟨pkfs, lastChild⟩ := pr
                cases lastChild with
                | none =>
                  simp only [Prod.mk.injEq] at h
                  obtain ⟨rfl, rfl⟩ := h
                  refine ⟨step_trans hstep1 (step_trans hstep2 (step_trans
                    hstep3 hstep4)),
                    ?_, fun _ w hm => absurd hm (by simp)⟩
                  intro hw m hm td htd
                  have hmm : model = m := by simpa using hm
                  subst hmm
                  rw [htd] at hgd
                  injection hgd with hdt
                  subst hdt
                  obtain ⟨mono1, hw1⟩ := hstep1 hw
                  obtain ⟨mono2, hw2⟩ := hstep2 hw1
                  obtain ⟨mono3, hw3⟩ := hstep3 hw2
                  obtain ⟨mono4, hw4⟩ := hstep4 hw3
                  exact mono4.2.1 _ _ (mono3.2.1 _ _ (mono2.2.1 _ _ hcached))
                | some child =>
                  simp only [Prod.mk.injEq] at h
                  obtain ⟨rfl, rfl⟩ := h
                  have hstep5 : Step s4 (remove_pfks s4 child pkfs) :=
                    step_remove_pfks s4 child pkfs
                  refine ⟨step_trans hstep1 (step_trans hstep2 (step_trans
                    hstep3 (step_trans hstep4 hstep5))),
                    ?_, fun _ w hm => absurd hm (by simp)⟩
                  intro hw m hm td htd
                  have hmm : model = m := by simpa using hm
                  subst hmm
                  rw [htd] at hgd
                  injection hgd with hdt
                  subst hdt
                  obtain ⟨mono1, hw1⟩ := hstep1 hw
                  obtain ⟨mono2, hw2⟩ := hstep2 hw1
                  obtain ⟨mono3, hw3⟩ := hstep3 hw2
                  obtain ⟨mono4, hw4⟩ := hstep4 hw3
                  obtain ⟨mono5, hw5⟩ := hstep5 hw4
                  exact mono5.2.1 _ _ (mono4.2.1 _ _ (mono3.2.1 _ _
                    (mono2.2.1 _ _ hcached)))

theorem master (fuel : Nat) :
    (∀ s T K s' r, ensure_partition fuel s T K = (s', r) →
      EnsurePost s T K s' r) ∧
    (∀ s pl i K nm acc lc s' r, pfk_loop fuel s pl i K nm acc lc = (s', r) →
      Step s s') ∧
    (∀ s T K c s' r, get_partition fuel s T K c = (s', r) →
      GpPost s T K s' r) := by
  induction fuel with
  | zero =>
    refine ⟨?_, ?_, ?_⟩
    · intro s T K s' r h
      unfold ensure_partition at h
      simp only [Prod.mk.injEq] at h
      obtain ⟨rfl, rfl⟩ := h
      exact ⟨step_refl s, fun _ m hm => absurd hm (by simp),
        fun _ w hm => absurd hm (by simp)⟩
    · intro s pl i K nm acc lc s' r h
      unfold pfk_loop at h
      cases hdrop : (pl.contents s).drop i with
      | nil =>
        rw [hdrop] at h
        simp only [Prod.mk.injEq] at h
        obtain ⟨rfl, rfl⟩ := h
        exact step_refl s
      | cons pfk rest =>
        rw [hdrop] at h
        simp only [Prod.mk.injEq] at h
        obtain ⟨rfl, rfl⟩ := h
        exact step_refl s
    · intro s T K c s' r h
      unfold get_partition at h
      simp only [Prod.mk.injEq] at h
      obtain ⟨rfl, rfl⟩ := h
      exact ⟨step_refl s, fun _ m hm => absurd hm (by simp)⟩
  | succ n ih =>
    obtain ⟨ihA, ihB, ihC⟩ := ih
    exact ⟨ens_from_loop n ihB, loop_step_from n ihC ihB,
      gp_from_ens n ihA⟩

/-- Every synthesis call satisfies the synthesis postcondition. -/
theorem ensure_post (fuel : Nat) : ∀ s T K s' r,
    ensure_partition fuel s T K = (s', r) → EnsurePost s T K s' r :=
  (master fuel).1

/-- Every lookup-or-create call satisfies the lookup postcondition. -/
theorem gp_post (fuel : Nat) : ∀ s T K c s' r,
    get_partition fuel s T K c = (s', r) → GpPost s T K s' r :=
  (master fuel).2.2

/-! Auxiliary facts about create_model and string names. -/

theorem contribute_managers_modules (s : PState) (m : ModelId) :
    (contribute_managers s m).modules = s.modules := rfl

theorem create_model_modules (s : PState) (nm : String) (t : ModelId)
    (key mp : String) : (create_model s nm t key mp).1.modules = s.modules := by
  unfold create_model
  cases hgd : getModelData s t with
  | none => rfl
  | some td =>
    cases hcf : copyFields (allocModel s (newPartitionData nm td key mp))
        td.local_fields s.nextId with
    | mk s2 r =>
      have h2 : s2.modules = s.modules := by
        have := copyFields_modules td.local_fields
          (allocModel s (newPartitionData nm td key mp)) s.nextId
        rw [hcf] at this
        exact this
      cases r with
      | error e => simpa [hcf] using h2
      | ok u =>
        cases u
        cases hl : lookupA s2.app_models (td.app_label, lowerName nm) with
        | some existing => simpa [hcf, hl] using h2
        | none => simpa [hcf, hl] using h2

theorem create_model_ok_existing {s s2 : PState} {m mid : ModelId}
    {nm : String} {t : ModelId} {key mp : String} {td : ModelData}
    (hgd : getModelData s t = some td)
    (hcache : lookupA s.app_models (td.app_label, lowerName nm) = some mid)
    (hcm : create_model s nm t key mp = (s2, .ok m)) : m = mid := by
  unfold create_model at hcm
  simp only [hgd] at hcm
  cases hcf : copyFields (allocModel s (newPartitionData nm td key mp))
      td.local_fields s.nextId with
  | mk s3 r =>
    rw [hcf] at hcm
    have happ : s3.app_models = s.app_models := by
      have := copyFields_app td.local_fields
        (allocModel s (newPartitionData nm td key mp)) s.nextId
      rw [hcf] at this
      exact this
    cases r with
    | error e => simp at hcm
    | ok u =>
      cases u
      simp only [happ, hcache, Prod.mk.injEq, Except.ok.injEq] at hcm
      exact hcm.2.symm

theorem lowerName_append (a b : String) :
    lowerName (a ++ b) = lowerName a ++ lowerName b := by
  cases a with
  | mk xs =>
    cases b with
    | mk ys =>
      show String.mk ((xs ++ ys).map Char.toLower)
        = String.mk (xs.map Char.toLower ++ ys.map Char.toLower)
      rw [List.map_append]

theorem append_ne_append_of_head {c d : Char} {as bs : List Char}
    (a b x y : String) (ha : a.data = c :: as) (hb : b.data = d :: bs)
    (hcd : c ≠ d) : a ++ x ≠ b ++ y := by
  intro hcontr
  have h2 := congrArg String.data hcontr
  rw [String.data_append, String.data_append, ha, hb] at h2
  simp only [List.cons_append, List.cons.injEq] at h2
  exact hcd h2.1

/-- A pair equals the pair of its own first component with a computed
second component. -/
theorem pair_eta_snd {A B : Type} (p : A × B) (b : B) (h : p.2 = b) :
    p = (p.1, b) := by
  rw [← h]

/-! The claim theorems. -/

/-- C2: for every template entity `T` and partition key `K`, calling
`get_partition` twice with `create = true` returns the identical concrete
entity both times and the second call creates no second entity (it returns
the state of the first call unchanged): the same key always yields the same
concrete entity. -/
theorem c2_get_partition_idempotent (fuel fuel2 : Nat) (s : PState)
    (T : ModelId) (K : String) (s1 : PState) (m : ModelId)
    (hw : WFids s)
    (h : get_partition fuel s T K true = (s1, .ok (some m))) :
    get_partition (fuel2 + 1) s1 T K true = (s1, .ok (some m)) := by
  obtain ⟨hstep, hcache⟩ := gp_post fuel s T K true s1 _ h
  cases hgd : getModelData s T with
  | none =>
    cases fuel with
    | zero => unfold get_partition at h; simp at h
    | succ f =>
      unfold get_partition at h
      rw [hgd] at h
      simp at h
  | some td =>
    have hc := hcache hw m rfl td hgd
    obtain ⟨mono, hw1⟩ := hstep hw
    obtain ⟨td1, hgd1, hst⟩ := mono.2.2.2 T td hgd
    have hgd1a : getModelData s1 T = some td1 := hgd1
    have hgm : get_model s1 td1.app_label (td1.object_name ++ "_" ++ K)
        = some m := by
      unfold get_model
      rw [hst.2.1, hst.1]
      exact hc
    unfold get_partition
    rw [hgd1a]
    simp [hgm]

/-- C2 witness: the foo partition of the Tweet template, requested twice. -/
theorem c2_witness :
    get_partition 1 (get_partition 8 c1State 0 "foo" true).1 0 "foo" true
      = ((get_partition 8 c1State 0 "foo" true).1, .ok (some 3)) :=
  c2_get_partition_idempotent 8 0 c1State 0 "foo"
    (get_partition 8 c1State 0 "foo" true).1 3 (by decide)
    (pair_eta_snd _ _ (by
      simp [c1State, c1Build, newClass, add_field, updModel, updList,
        PartitionManager.contribute_to_class, PartitionForeignKey.declare,
        PartitionForeignKey.contribute_to_class, register_foreign_key,
        lookupA, get_partition, ensure_partition, pfk_loop, create_model,
        copyFields, allocModel, newPartitionData, contribute_managers,
        get_model, lowerName, metaFields, computedFields, getModelData,
        fill_fields_cache, point, remove_pfks, insertPFK,
        removeFirstPFKNamed, foreign_keys_referencing, PyList.contents,
        setA, moduleGet, truthyKey, Field.isPFK, Field.pfkTo, Field.name,
        updNth, kwStar]))

/-- C7: for every template entity `T` and key `K` whose concrete partition
is absent from the app cache, `get_partition` with `create = false` returns
absent (`none`) without an error and leaves the whole state unchanged (no
entity is created; catalog, namespace and registry are untouched). -/
theorem c7_no_create_miss (fuel : Nat) (s : PState) (T : ModelId)
    (K : String) (td : ModelData) (hgd : getModelData s T = some td)
    (hmiss : get_model s td.app_label (td.object_name ++ "_" ++ K) = none) :
    get_partition (fuel + 1) s T K false = (s, .ok none) := by
  unfold get_partition
  rw [hgd]
  simp [hmiss]

/-- C7 witness: the bar partition of the Tweet template is absent. -/
theorem c7_witness : get_partition 5 c1State 0 "bar" false
    = (c1State, .ok none) :=
  c7_no_create_miss 4 c1State 0 "bar"
    { object_name := "Tweet", app_label := "testapp",
      module := "testapp.models", abstract := true,
      local_fields := [.plain "json", .plain "created"],
      partition_manager := some 0 }
    (by decide) (by decide)

/-- C5: a missing-manager failure while resolving a dependent propagates as
an error, but only after the parent concrete entity was created and bound:
in the error state the parent name is bound in the owning module to a model
registered in the app cache, and no module binding or app-cache entry
present before the call has been removed (no rollback). -/
theorem c5_parent_present_on_dependent_failure (fuel : Nat) (s : PState)
    (T : ModelId) (K : String) (s' : PState) (w : String) (td : ModelData)
    (hw : WFids s) (hgd : getModelData s T = some td)
    (h : ensure_partition fuel s T K = (s', .error (.attributeNoManager w))) :
    (∃ mid,
      moduleGet s' td.module (td.object_name ++ "_" ++ K)
        = some (.model mid) ∧
      lookupA s'.app_models
        (td.app_label, lowerName (td.object_name ++ "_" ++ K)) = some mid) ∧
    (∀ mo n o, moduleGet s mo n = some o → moduleGet s' mo n = some o) ∧
    (∀ k v, lookupA s.app_models k = some v →
      lookupA s'.app_models k = some v) := by
  obtain ⟨hstep, _, hnm⟩ := ensure_post fuel s T K s' _ h
  obtain ⟨mono, _⟩ := hstep hw
  exact ⟨hnm hw w rfl td hgd, mono.2.2.1, mono.2.1⟩

/-- C5 witness: a Star template with a placeholder but no manager makes
Tweet synthesis fail with the missing-manager error, with Tweet_foo created
and bound. -/
theorem c5_witness :
    ∃ mid,
      moduleGet (ensure_partition 6 c5State 0 "foo").1 "testapp.models"
        ("Tweet" ++ "_" ++ "foo") = some (.model mid) ∧
      lookupA (ensure_partition 6 c5State 0 "foo").1.app_models
        ("testapp", lowerName ("Tweet" ++ "_" ++ "foo")) = some mid :=
  (c5_parent_present_on_dependent_failure 6 c5State 0 "foo"
    (ensure_partition 6 c5State 0 "foo").1 "Star"
    { object_name := "Tweet", app_label := "testapp",
      module := "testapp.models", abstract := true,
      local_fields := [.plain "json"], partition_manager := some 0 }
    (by decide) (by decide)
    (pair_eta_snd _ _ (by
      simp [c5State, c5Build, newClass, add_field, updModel, updList,
        PartitionManager.contribute_to_class, PartitionForeignKey.declare,
        PartitionForeignKey.contribute_to_class, register_foreign_key,
        lookupA, get_partition, ensure_partition, pfk_loop, create_model,
        copyFields, allocModel, newPartitionData, contribute_managers,
        get_model, lowerName, metaFields, computedFields, getModelData,
        fill_fields_cache, point, remove_pfks, insertPFK,
        removeFirstPFKNamed, foreign_keys_referencing, PyList.contents,
        setA, moduleGet, truthyKey, Field.isPFK, Field.pfkTo, Field.name,
        updNth]))).1

/-- C4: if the owning module already binds the deterministic concrete name
to some object, synthesis (after class creation succeeds) fails with the
name-collision AttributeError and the pre-existing binding is left
untouched, never overwritten. -/
theorem c4_name_collision_preserves_binding (fuel : Nat) (s : PState)
    (T : ModelId) (K : String) (td : ModelData) (obj : Obj) (s2 : PState)
    (m : ModelId)
    (hgd : getModelData s T = some td)
    (hbind : moduleGet s td.module (td.object_name ++ "_" ++ K) = some obj)
    (hcm : create_model s (td.object_name ++ "_" ++ K) T K td.module
      = (s2, .ok m)) :
    ensure_partition (fuel + 1) s T K
      = (contribute_managers s2 m,
         .error (.attributeExists (td.object_name ++ "_" ++ K) td.module)) ∧
    moduleGet (contribute_managers s2 m) td.module
      (td.object_name ++ "_" ++ K) = some obj := by
  have hms : s2.modules = s.modules := by
    have := create_model_modules s (td.object_name ++ "_" ++ K) T K td.module
    rw [hcm] at this
    exact this
  unfold moduleGet at hbind
  cases hmod0 : lookupA s.modules td.module with
  | none => rw [hmod0] at hbind; cases hbind
  | some mdict =>
    rw [hmod0] at hbind
    simp only [Option.bind] at hbind
    constructor
    · unfold ensure_partition
      rw [hgd]
      simp only [hcm]
      rw [contribute_managers_modules, hms, hmod0]
      simp [hbind]
    · show (lookupA (contribute_managers s2 m).modules td.module).bind _
        = some obj
      rw [contribute_managers_modules, hms, hmod0]
      simpa using hbind

/-- C4 witness: the test_no_overwrite scenario, with a foreign object
pre-bound under Tweet_foo. -/
theorem c4_witness :
    ensure_partition 6 c4State 0 "foo"
      = (contribute_managers
          (create_model c4State ("Tweet" ++ "_" ++ "foo") 0 "foo"
            "testapp.models").1 1,
         .error (.attributeExists ("Tweet" ++ "_" ++ "foo")
           "testapp.models")) ∧
    moduleGet (contribute_managers
        (create_model c4State ("Tweet" ++ "_" ++ "foo") 0 "foo"
          "testapp.models").1 1) "testapp.models" ("Tweet" ++ "_" ++ "foo")
      = some (.plainObj 99) :=
  c4_name_collision_preserves_binding 5 c4State 0 "foo"
    { object_name := "Tweet", app_label := "testapp",
      module := "testapp.models", abstract := true,
      local_fields := [.plain "json"], partition_manager := some 0 }
    (.plainObj 99)
    (create_model c4State ("Tweet" ++ "_" ++ "foo") 0 "foo"
      "testapp.models").1 1
    (by decide) (by decide)
    (pair_eta_snd _ _ (by decide))

/-- C1 counterexample: for the empty partition key the cascade does not
create the dependent partition at all.  Creating the Tweet partition for
the key "" reaches the Star dependent, whose generated class carries the
falsy marker "", so the copied placeholder's abstractness check raises the
AssertionError and the Star partition is never registered -- falsifying
the claim as stated for every key `K`. -/
theorem c1_counterexample :
    (get_partition 8 c1State 0 "" true).2
      = .error (.assertionAbstract "Star_") ∧
    get_model (get_partition 8 c1State 0 "" true).1 "testapp"
      ("Star_" ++ "") = none := by
  have e1 : lowerName "Tweet_" = "tweet_" := by decide
  have e2 : lowerName "Star_" = "star_" := by decide
  have hne1 : ∀ x y : String, ("star_" ++ x) ≠ ("tweet_" ++ y) :=
    fun x y => append_ne_append_of_head _ _ _ _ rfl rfl (by decide)
  have hne2 : ∀ x y : String, ("tweet_" ++ x) ≠ ("star_" ++ y) :=
    fun x y => append_ne_append_of_head _ _ _ _ rfl rfl (by decide)
  refine ⟨?_, ?_⟩ <;>
  simp [c1State, c1Build, newClass, add_field, updModel, updList,
    PartitionManager.contribute_to_class, PartitionForeignKey.declare,
    PartitionForeignKey.contribute_to_class, register_foreign_key, lookupA,
    get_partition, ensure_partition, pfk_loop, create_model, copyFields,
    allocModel, newPartitionData, contribute_managers, get_model,
    lowerName_append, e1, e2, hne1, hne2, metaFields, computedFields,
    getModelData, fill_fields_cache, point, remove_pfks, insertPFK,
    removeFirstPFKNamed, foreign_keys_referencing, PyList.contents, setA,
    moduleGet, truthyKey, Field.isPFK, Field.pfkTo, Field.name, updNth,
    kwStar]

/-- C1 amended: for every non-empty (truthy) partition key `K` -- the empty
key instead aborts the cascade with the abstractness AssertionError, as the
counterexample shows -- creating the Tweet partition for `K` on a cache
miss also creates the Star partition for the same key: the run returns the
new Tweet_K entity (id 3), registers Star_K (id 4) under its deterministic
name, and Star_K ends with exactly its plain field and a concrete foreign
key named tweet pointing at Tweet_K carrying the declared options -- no
PartitionForeignKey-typed field remains in its local field list or in its
field cache. -/
theorem c1_cascade_creates_dependent_partition (K : String) (hK : K ≠ "") :
    (get_partition 8 c1State 0 K true).2 = .ok (some 3) ∧
    get_model (get_partition 8 c1State 0 K true).1 "testapp" ("Star_" ++ K)
      = some 4 ∧
    (getModelData (get_partition 8 c1State 0 K true).1 3).map
      (fun d => d.object_name) = some ("Tweet_" ++ K) ∧
    (getModelData (get_partition 8 c1State 0 K true).1 4).map
      (fun d => (d.object_name, d.local_fields))
      = some ("Star_" ++ K, [.plain "user", .fk "tweet" 3 kwStar]) ∧
    metaFields (get_partition 8 c1State 0 K true).1 4
      = [.plain "user", .fk "tweet" 3 kwStar] := by
  have e1 : lowerName "Tweet_" = "tweet_" := by decide
  have e2 : lowerName "Star_" = "star_" := by decide
  have hne1 : ∀ x y : String, ("star_" ++ x) ≠ ("tweet_" ++ y) :=
    fun x y => append_ne_append_of_head _ _ _ _ rfl rfl (by decide)
  have hne2 : ∀ x y : String, ("tweet_" ++ x) ≠ ("star_" ++ y) :=
    fun x y => append_ne_append_of_head _ _ _ _ rfl rfl (by decide)
  have hne3 : ∀ x y : String, ("Star_" ++ x) ≠ ("Tweet_" ++ y) :=
    fun x y => append_ne_append_of_head _ _ _ _ rfl rfl (by decide)
  have hne4 : ∀ x y : String, ("Tweet_" ++ x) ≠ ("Star_" ++ y) :=
    fun x y => append_ne_append_of_head _ _ _ _ rfl rfl (by decide)
  refine ⟨?_, ?_, ?_, ?_, ?_⟩ <;>
  simp [c1State, c1Build, newClass, add_field, updModel, updList,
    PartitionManager.contribute_to_class, PartitionForeignKey.declare,
    PartitionForeignKey.contribute_to_class, register_foreign_key, lookupA,
    get_partition, ensure_partition, pfk_loop, create_model, copyFields,
    allocModel, newPartitionData, contribute_managers, get_model,
    lowerName_append, e1, e2, hne1, hne2, hne3, hne4, hK, metaFields,
    computedFields, getModelData, fill_fields_cache, point, remove_pfks,
    insertPFK, removeFirstPFKNamed, foreign_keys_referencing,
    PyList.contents, setA, moduleGet, truthyKey, Field.isPFK, Field.pfkTo,
    Field.name, updNth, kwStar]

/-- C1 witness: the foo key. -/
theorem c1_witness :
    (get_partition 8 c1State 0 "foo" true).2 = .ok (some 3) ∧
    get_model (get_partition 8 c1State 0 "foo" true).1 "testapp"
      ("Star_" ++ "foo") = some 4 ∧
    (getModelData (get_partition 8 c1State 0 "foo" true).1 3).map
      (fun d => d.object_name) = some ("Tweet_" ++ "foo") ∧
    (getModelData (get_partition 8 c1State 0 "foo" true).1 4).map
      (fun d => (d.object_name, d.local_fields))
      = some ("Star_" ++ "foo", [.plain "user", .fk "tweet" 3 kwStar]) ∧
    metaFields (get_partition 8 c1State 0 "foo" true).1 4
      = [.plain "user", .fk "tweet" 3 kwStar] :=
  c1_cascade_creates_dependent_partition "foo" (by decide)

/-- C3 counterexample: in a state where the foo partition of Tweet already
exists (created by another actor: registered in the app cache as id 1 and
bound in the module), running synthesis again does not return the existing
entity: it raises the name-collision AttributeError.  This falsifies the
claim that synthesis re-checks existence and returns the existing entity
with no error. -/
theorem c3_counterexample :
    get_model c3State "testapp" "Tweet_foo" = some 1 ∧
    moduleGet c3State "testapp.models" "Tweet_foo" = some (.model 1) ∧
    (ensure_partition 6 c3State 0 "foo").2
      = .error (.attributeExists "Tweet_foo" "testapp.models") := by
  refine ⟨?_, ?_, ?_⟩ <;>
  simp [c3State, tweetOnly, tweetOnlyBuild, newClass, add_field, updModel,
    updList, PartitionManager.contribute_to_class, register_foreign_key,
    lookupA, get_partition, ensure_partition, pfk_loop, create_model,
    copyFields, allocModel, newPartitionData, contribute_managers,
    get_model, lowerName, metaFields, computedFields, getModelData,
    fill_fields_cache, point, remove_pfks, insertPFK, removeFirstPFKNamed,
    foreign_keys_referencing, PyList.contents, setA, moduleGet, truthyKey,
    Field.isPFK, Field.pfkTo, Field.name, updNth]

/-- C3 amended: synthesis performs no existence re-check.  If the concrete
entity for (template, key) was already created by another actor (present in
the app cache as `mid` and bound in the module), synthesis raises the
name-collision AttributeError instead of returning the existing entity; the
underlying class creation does return the first-registered entity
(`m = mid`, no second registration), but the module-binding check then
fails. -/
theorem c3_no_recheck_collision (fuel : Nat) (s : PState) (T : ModelId)
    (K : String) (td : ModelData) (mid : ModelId) (s2 : PState) (m : ModelId)
    (hgd : getModelData s T = some td)
    (hcache : lookupA s.app_models
      (td.app_label, lowerName (td.object_name ++ "_" ++ K)) = some mid)
    (hbind : moduleGet s td.module (td.object_name ++ "_" ++ K)
      = some (.model mid))
    (hcm : create_model s (td.object_name ++ "_" ++ K) T K td.module
      = (s2, .ok m)) :
    m = mid ∧
    ensure_partition (fuel + 1) s T K
      = (contribute_managers s2 m,
         .error (.attributeExists (td.object_name ++ "_" ++ K)
           td.module)) := by
  refine ⟨create_model_ok_existing hgd hcache hcm, ?_⟩
  have hms : s2.modules = s.modules := by
    have := create_model_modules s (td.object_name ++ "_" ++ K) T K td.module
    rw [hcm] at this
    exact this
  unfold moduleGet at hbind
  cases hmod0 : lookupA s.modules td.module with
  | none => rw [hmod0] at hbind; cases hbind
  | some mdict =>
    rw [hmod0] at hbind
    simp only [Option.bind] at hbind
    unfold ensure_partition
    rw [hgd]
    simp only [hcm]
    rw [contribute_managers_modules, hms, hmod0]
    simp [hbind]

/-- C3 witness for the amended claim: the concrete pre-created state. -/
theorem c3_witness :
    ensure_partition 6 c3State 0 "foo"
      = (contribute_managers
          (create_model c3State ("Tweet" ++ "_" ++ "foo") 0 "foo"
            "testapp.models").1 1,
         .error (.attributeExists ("Tweet" ++ "_" ++ "foo")
           "testapp.models")) := by
  have hc3 : c3State =
      { nextId := 2,
        models := [(1,
          { object_name := "Tweet_foo", app_label := "testapp",
            module := "testapp.models", abstract := false,
            partition_key := some "foo",
            local_fields := [.plain "json"],
            partition_manager := some 0, managers := ["objects"] }),
          (0,
          { object_name := "Tweet", app_label := "testapp",
            module := "testapp.models", abstract := true,
            local_fields := [.plain "json"],
            partition_manager := some 0 })],
        app_models := [(("testapp", "tweet_foo"), 1)],
        modules := [("testapp.models", [("Tweet_foo", .model 1)])] } := by
    simp [c3State, tweetOnly, tweetOnlyBuild, newClass, add_field, updModel,
      updList, PartitionManager.contribute_to_class, register_foreign_key,
      lookupA, get_partition, ensure_partition, pfk_loop, create_model,
      copyFields, allocModel, newPartitionData, contribute_managers,
      get_model, lowerName, getModelData, fill_fields_cache, point,
      remove_pfks, insertPFK, removeFirstPFKNamed, foreign_keys_referencing,
      PyList.contents, setA, moduleGet, truthyKey, updNth]
  rw [hc3]
  exact (c3_no_recheck_collision 5 _ 0 "foo"
    { object_name := "Tweet", app_label := "testapp",
      module := "testapp.models", abstract := true,
      local_fields := [.plain "json"], partition_manager := some 0 }
    1 _ 1 (by decide) (by decide) (by decide)
    (pair_eta_snd _ _ (by decide))).2

/-- C6 counterexample: after one placeholder is registered for a target,
`foreign_keys_referencing` returns the stored list itself; a subsequent
registration for the same target changes the contents of that previously
returned list, falsifying the stable-snapshot claim. -/
theorem c6_counterexample :
    (foreign_keys_referencing s6 0).contents s6 = [pA] ∧
    pB.tgt = 0 ∧
    (foreign_keys_referencing s6 0).contents (register_foreign_key s6 pB)
      ≠ (foreign_keys_referencing s6 0).contents s6 := by decide

/-- C6 amended: `foreign_keys_referencing` returns the live stored list,
not a snapshot.  When the target already has a stored list, a later
registration for the same target appends to the previously returned list
(its observed contents become the old contents extended by the new
placeholder); only a registration that creates a fresh entry for a
different, unregistered target leaves the previously returned list
unchanged. -/
theorem c6_referencing_live_list (s : PState) (T : ModelId) (r : Nat)
    (fk : PFK)
    (hr : foreign_keys_referencing s T = .ref r)
    (hlen : r < s.lists.length) :
    (fk.tgt = T →
      (foreign_keys_referencing s T).contents (register_foreign_key s fk)
        = (foreign_keys_referencing s T).contents s ++ [fk]) ∧
    (lookupA s.partitioned_targets fk.tgt = none →
      (foreign_keys_referencing s T).contents (register_foreign_key s fk)
        = (foreign_keys_referencing s T).contents s) := by
  have hl : lookupA s.partitioned_targets T = some r := by
    unfold foreign_keys_referencing at hr
    cases hlk : lookupA s.partitioned_targets T with
    | none => rw [hlk] at hr; cases hr
    | some r0 =>
      rw [hlk] at hr
      cases hr
      rfl
  rw [hr]
  constructor
  · intro htgt
    unfold register_foreign_key
    rw [htgt, hl]
    show (updNth s.lists r (fun l => l ++ [fk])).getD r []
      = s.lists.getD r [] ++ [fk]
    rw [getD_updNth s.lists r _ [] hlen]
  · intro hnone
    unfold register_foreign_key
    rw [hnone]
    show (s.lists ++ [[fk]]).getD r [] = s.lists.getD r []
    exact getD_append_lt s.lists [[fk]] r [] hlen

/-- C6 witness for the amended claim: the concrete two-placeholder state. -/
theorem c6_witness :
    (foreign_keys_referencing s6 0).contents (register_foreign_key s6 pB)
      = (foreign_keys_referencing s6 0).contents s6 ++ [pB] :=
  (c6_referencing_live_list s6 0 0 pB (by decide) (by decide)).1 (by decide)

/-- C8 counterexample: attaching a PartitionForeignKey to a non-abstract
class that carries a truthy partition-key marker (a generated partition)
does not raise, falsifying the claim that attaching one to any non-abstract
entity raises the configuration error. -/
theorem c8_counterexample :
    (getModelData c10aBuild.1 c10aBuild.2).map (fun d => d.abstract)
      = some false ∧
    (PartitionForeignKey.declare c10aBuild.1 5 {} c10aBuild.2 "tweet").2
      = .ok () := by decide

/-- C8 amended: attaching a PartitionManager to any non-abstract entity
raises the configuration AssertionError with the state unchanged; attaching
a PartitionForeignKey raises it exactly when the non-abstract owner also
lacks a truthy partition-key marker, again with the state unchanged (the
check runs before any partition logic). -/
theorem c8_abstract_checks :
    (∀ s m d, getModelData s m = some d → d.abstract = false →
      PartitionManager.contribute_to_class s m
        = (s, .error (.assertionAbstract d.object_name))) ∧
    (∀ s pid tgt kw cls n d, getModelData s cls = some d →
      d.abstract = false → truthyKey d.partition_key = false →
      PartitionForeignKey.contribute_to_class s pid tgt kw cls n
        = (s, .error (.assertionAbstract d.object_name))) := by
  constructor
  · intro s m d hgd hab
    unfold PartitionManager.contribute_to_class
    rw [hgd]
    simp [hab]
  · intro s pid tgt kw cls n d hgd hab htr
    unfold PartitionForeignKey.contribute_to_class
    rw [hgd]
    simp [hab, htr]

/-- C8 witness: the BadModel scenario for both attachment kinds. -/
theorem c8_witness :
    PartitionManager.contribute_to_class c8Build.1 c8Build.2
      = (c8Build.1, .error (.assertionAbstract "BadModel")) ∧
    PartitionForeignKey.contribute_to_class c8Build.1 7 0 {} c8Build.2
        "parent"
      = (c8Build.1, .error (.assertionAbstract "BadModel")) :=
  ⟨(c8_abstract_checks).1 c8Build.1 c8Build.2
    { object_name := "BadModel", app_label := "testapp",
      module := "testapp.models", abstract := false }
    (by decide) (by decide),
   (c8_abstract_checks).2 c8Build.1 7 0 {} c8Build.2 "parent"
    { object_name := "BadModel", app_label := "testapp",
      module := "testapp.models", abstract := false }
    (by decide) (by decide) (by decide)⟩

/-- C10 counterexample: a non-abstract class carrying the partition-key
marker attribute with the empty-string value (as the generated partition
for the key "" would) still raises the abstractness error, falsifying the
claim that the error is raised only for non-abstract classes lacking the
marker. -/
theorem c10_counterexample :
    get_partition_key c10bBuild.1 c10bBuild.2 = some "" ∧
    (getModelData c10bBuild.1 c10bBuild.2).map (fun d => d.abstract)
      = some false ∧
    (PartitionForeignKey.declare c10bBuild.1 5 {} c10bBuild.2 "tweet").2
      = .error (.assertionAbstract "Tweet_") := by decide

/-- C10 amended: attaching a PartitionForeignKey to a non-abstract class
raises the abstractness error exactly when the class lacks a truthy
(non-empty) partition-key marker: with a truthy marker the attachment never
raises the abstractness error, and without one it always does. -/
theorem c10_partition_key_exemption :
    (∀ s pid tgt kw cls n d, getModelData s cls = some d →
      d.abstract = false → truthyKey d.partition_key = true →
      ∀ w, (PartitionForeignKey.contribute_to_class s pid tgt kw cls n).2
        ≠ .error (.assertionAbstract w)) ∧
    (∀ s pid tgt kw cls n d, getModelData s cls = some d →
      d.abstract = false → truthyKey d.partition_key = false →
      (PartitionForeignKey.contribute_to_class s pid tgt kw cls n).2
        = .error (.assertionAbstract d.object_name)) := by
  constructor
  · intro s pid tgt kw cls n d hgd hab htr w
    unfold PartitionForeignKey.contribute_to_class
    rw [hgd]
    simp only [hab, htr]
    split
    · simp_all
    · split <;> simp
  · intro s pid tgt kw cls n d hgd hab htr
    unfold PartitionForeignKey.contribute_to_class
    rw [hgd]
    simp [hab, htr]

/-- C10 witness: the marked partition accepts the placeholder, the
unmarked non-abstract class refuses it. -/
theorem c10_witness :
    ((PartitionForeignKey.declare c10aBuild.1 5 {} c10aBuild.2 "tweet").2
      ≠ .error (.assertionAbstract "Tweet_foo")) ∧
    (PartitionForeignKey.contribute_to_class c8Build.1 7 0 {} c8Build.2
        "parent").2
      = .error (.assertionAbstract "BadModel") :=
  ⟨(c10_partition_key_exemption).1 c10aBuild.1 1 5 {} c10aBuild.2 "tweet"
    { object_name := "Tweet_foo", app_label := "testapp",
      module := "testapp.models", abstract := false,
      partition_key := some "foo" }
    (by decide) (by decide) (by decide) "Tweet_foo",
   (c10_partition_key_exemption).2 c8Build.1 7 0 {} c8Build.2 "parent"
    { object_name := "BadModel", app_label := "testapp",
      module := "testapp.models", abstract := false }
    (by decide) (by decide) (by decide)⟩

/-- C9: attaching a PartitionForeignKey to an owner that already carries a
placeholder with a different target raises the multi-target
AssertionError with the state unchanged (shown universally, and on the
concrete two-target declaration scenario), while declaring two placeholders
to the same target succeeds, and during the cascade for any truthy key `K`
both resolve correctly: the ChildPartitionModel partition (id 5) ends with
exactly the two concrete foreign keys parent_1 and parent_2 pointing at the
ParentModel partition (id 4), carrying their declared related names, with
no placeholder left in its field lists. -/
theorem c9_same_target_ok_multi_target_fails :
    (∀ s pid tgt kw cls n d f, getModelData s cls = some d →
      d.abstract = true → f ∈ metaFields s cls → f.isPFK = true →
      f.pfkTo ≠ some tgt →
      PartitionForeignKey.contribute_to_class s pid tgt kw cls n
        = (s, .error (.assertionMultiTarget d.object_name))) ∧
    c9aBuild.2 = .error (.assertionMultiTarget "ChildPartitionModel") ∧
    c9Build.2 = .ok () ∧
    (∀ K : String, K ≠ "" →
      (get_partition 12 c9State 0 K true).2 = .ok (some 4) ∧
      get_model (get_partition 12 c9State 0 K true).1 "testapp"
        ("ChildPartitionModel_" ++ K) = some 5 ∧
      (getModelData (get_partition 12 c9State 0 K true).1 5).map
        (fun d => d.local_fields)
        = some [.fk "parent_1" 4 { related_name := some "parent_1_set" },
                .fk "parent_2" 4 { related_name := some "parent_2_set" }] ∧
      metaFields (get_partition 12 c9State 0 K true).1 5
        = [.fk "parent_1" 4 { related_name := some "parent_1_set" },
           .fk "parent_2" 4 { related_name := some "parent_2_set" }]) := by
  refine ⟨?_, by decide, by decide, ?_⟩
  · intro s pid tgt kw cls n d f hgd habs hmem hpfk hne
    unfold PartitionForeignKey.contribute_to_class
    rw [hgd]
    simp [habs]
    exact ⟨f, hmem, hpfk, hne⟩
  · intro K hK
    have e1 : lowerName "ParentModel_" = "parentmodel_" := by decide
    have e2 : lowerName "ChildPartitionModel_" = "childpartitionmodel_" := by
      decide
    have hne1 : ∀ x y : String,
        ("childpartitionmodel_" ++ x) ≠ ("parentmodel_" ++ y) :=
      fun x y => append_ne_append_of_head _ _ _ _ rfl rfl (by decide)
    have hne2 : ∀ x y : String,
        ("parentmodel_" ++ x) ≠ ("childpartitionmodel_" ++ y) :=
      fun x y => append_ne_append_of_head _ _ _ _ rfl rfl (by decide)
    have hne3 : ∀ x y : String,
        ("ChildPartitionModel_" ++ x) ≠ ("ParentModel_" ++ y) :=
      fun x y => append_ne_append_of_head _ _ _ _ rfl rfl (by decide)
    have hne4 : ∀ x y : String,
        ("ParentModel_" ++ x) ≠ ("ChildPartitionModel_" ++ y) :=
      fun x y => append_ne_append_of_head _ _ _ _ rfl rfl (by decide)
    refine ⟨?_, ?_, ?_, ?_⟩ <;>
    simp [c9State, c9Build, newClass, add_field, updModel, updList,
      PartitionManager.contribute_to_class, PartitionForeignKey.declare,
      PartitionForeignKey.contribute_to_class, register_foreign_key,
      lookupA, get_partition, ensure_partition, pfk_loop, create_model,
      copyFields, allocModel, newPartitionData, contribute_managers,
      get_model, lowerName_append, e1, e2, hne1, hne2, hne3, hne4, hK,
      metaFields, computedFields, getModelData, fill_fields_cache, point,
      remove_pfks, insertPFK, removeFirstPFKNamed,
      foreign_keys_referencing, PyList.contents, setA, moduleGet,
      truthyKey, Field.isPFK, Field.pfkTo, Field.name, updNth]

/-- C9 witness: the concrete multi-target instance and the foo cascade. -/
theorem c9_witness :
    PartitionForeignKey.contribute_to_class c9aState 4 1 {} 2 "parent_2"
      = (c9aState, .error (.assertionMultiTarget "ChildPartitionModel")) ∧
    ((get_partition 12 c9State 0 "foo" true).2 = .ok (some 4) ∧
      get_model (get_partition 12 c9State 0 "foo" true).1 "testapp"
        ("ChildPartitionModel_" ++ "foo") = some 5 ∧
      (getModelData (get_partition 12 c9State 0 "foo" true).1 5).map
        (fun d => d.local_fields)
        = some [.fk "parent_1" 4 { related_name := some "parent_1_set" },
                .fk "parent_2" 4 { related_name := some "parent_2_set" }] ∧
      metaFields (get_partition 12 c9State 0 "foo" true).1 5
        = [.fk "parent_1" 4 { related_name := some "parent_1_set" },
           .fk "parent_2" 4 { related_name := some "parent_2_set" }]) :=
  ⟨c9_same_target_ok_multi_target_fails.1 c9aState 4 1 {} 2 "parent_2"
    { object_name := "ChildPartitionModel", app_label := "testapp",
      module := "testapp.models", abstract := true,
      local_fields := [.pfk 3 "parent_1" 0 {}],
      field_cache := none, field_name_cache := none,
      partition_manager := none }
    (.pfk 3 "parent_1" 0 {})
    (by decide) (by decide) (by decide) (by decide) (by decide),
   c9_same_target_ok_multi_target_fails.2.2.2 "foo" (by decide)⟩

end Parting
